import Mathlib

/-!
Verification of the image-organizer staging / cross-platform duplicate code.

This file shallowly embeds the parts of the repository that the checked
claims are about:

* src/image_organizer/core/staging.py : class SafeImageDeleter
  (stage_for_deletion, undo_staging, confirm_deletion)
* src/image_organizer/utils/config.py : Config.is_path_protected and the
  staging-dir constants
* src/image_organizer/core/cross_platform.py :
  CrossPlatformDetector.find_cross_platform_duplicates

The filesystem is modelled explicitly: a finite association list of files
(path to content), a list of existing directories, a recycle-bin pool for
send2trash, and the append-only operations log.  Paths are lists of
components.  Wall-clock time is passed explicitly (Python datetime.now()),
measured in microseconds since an arbitrary epoch; the translation notes at
each definition record how the Python source maps to the Lean code.
-/

namespace ImgOrg

/-- A path component: an ordinary name, or an operation-id directory whose
name is the strftime "%Y%m%d_%H%M%S" rendering of a second count.  The
strftime string is zero padded field by field, so its lexicographic order
agrees with the numeric order of the second count; we keep the count. -/
inductive PathComp where
  | str : String → PathComp
  | opdir : Nat → PathComp
deriving DecidableEq

/-- A filesystem path, as the list of its components (root omitted). -/
abbrev FSPath := List PathComp

/-- One entry of the "files" array of an operation descriptor
(staging.py, stage_for_deletion, the staged_files.append dict). -/
structure StagedEntry where
  original_path : FSPath
  staged_path : FSPath
  size : Nat
  timestamp : Nat
deriving DecidableEq

/-- The operation.json descriptor (staging.py, operation_metadata dict).
The five trailing fields are absent until undo_staging / confirm_deletion
add them, which Option models. -/
structure OperationMeta where
  operation_id : Nat
  timestamp : Nat
  reason : String
  files_staged : Nat
  files : List StagedEntry
  metadata : List (String × String)
  status : String
  undo_timestamp : Option Nat := none
  files_restored : Option Nat := none
  deletion_timestamp : Option Nat := none
  files_deleted : Option Nat := none
  used_recycle_bin : Option Bool := none
deriving DecidableEq

/-- File content: raw bytes, or a JSON-serialised operation descriptor
(json.dump / json.load round-trip is modelled by storing the structure). -/
inductive Content where
  | bytes : List Nat → Content
  | descriptor : OperationMeta → Content
deriving DecidableEq

/-- One line of the operations log (staging.py, _log_operation). -/
structure LogRecord where
  timestamp : Nat
  operation_id : Nat
  reason : String
  files_count : Nat
  status : String
deriving DecidableEq

/-- The filesystem state: regular files with contents, existing
directories, the recycle bin (send2trash pool, remembering where each item
came from), and the operations log file. -/
structure FS where
  files : List (FSPath × Content)
  dirs : List FSPath
  trash : List (FSPath × Content)
  opsLog : List LogRecord
deriving DecidableEq

def FS.lookup (fs : FS) (p : FSPath) : Option Content :=
  (fs.files.find? (fun e => decide (e.1 = p))).map (fun e => e.2)

/-- Path.is_file-like check: a regular file exists at p. -/
def FS.fileExists (fs : FS) (p : FSPath) : Bool :=
  (fs.lookup p).isSome

/-- A directory exists at p. -/
def FS.dirExists (fs : FS) (p : FSPath) : Bool :=
  fs.dirs.any (fun q => decide (q = p))

/-- Path.exists(): true if a file or a directory is at p. -/
def FS.pathExists (fs : FS) (p : FSPath) : Bool :=
  fs.fileExists p || fs.dirExists p

def FS.removeFile (fs : FS) (p : FSPath) : FS :=
  { fs with files := fs.files.filter (fun e => decide (¬ e.1 = p)) }

/-- Create or overwrite the file at p with content c (open(p, "w")+write,
observed at the granularity of a whole call). -/
def FS.writeFile (fs : FS) (p : FSPath) (c : Content) : FS :=
  { fs with files := (p, c) :: (fs.files.filter (fun e => decide (¬ e.1 = p))) }

/-- shutil.move for a regular file: no-op when src has no file (the
guarded call sites check existence first). -/
def FS.move (fs : FS) (src dst : FSPath) : FS :=
  match fs.lookup src with
  | none => fs
  | some c => (fs.removeFile src).writeFile dst c

/-- All nonempty prefixes of a path, the path itself included. -/
def pathPrefixes : FSPath → List FSPath
  | [] => []
  | c :: rest => [c] :: (pathPrefixes rest).map (fun q => c :: q)

/-- Path.mkdir(parents=True, exist_ok=True): create d and every ancestor. -/
def FS.mkdirP (fs : FS) (d : FSPath) : FS :=
  { fs with dirs := ((pathPrefixes d).filter (fun q => decide (¬ q ∈ fs.dirs))) ++ fs.dirs }

/-- Path.rmdir (call sites only invoke it on an empty directory). -/
def FS.rmdir (fs : FS) (d : FSPath) : FS :=
  { fs with dirs := fs.dirs.filter (fun q => decide (¬ q = d)) }

/-- send2trash: move the file at p into the recoverable trash pool. -/
def FS.sendToTrash (fs : FS) (p : FSPath) : FS :=
  match fs.lookup p with
  | none => fs
  | some c => { fs with files := fs.files.filter (fun e => decide (¬ e.1 = p)),
                        trash := (p, c) :: fs.trash }

/-- os.unlink: permanently delete the file at p. -/
def FS.unlink (fs : FS) (p : FSPath) : FS := fs.removeFile p

/-- Append one line to the operations log (staging.py, _log_operation). -/
def FS.logOp (fs : FS) (r : LogRecord) : FS :=
  { fs with opsLog := fs.opsLog ++ [r] }

/-- True when a is a (non-strict) prefix of b, component by component. -/
def isPrefixPath : FSPath → FSPath → Bool
  | [], _ => true
  | _ :: _, [] => false
  | a :: as_, b :: bs => decide (a = b) && isPrefixPath as_ bs

/-- p lies strictly inside directory d. -/
def underDir (d p : FSPath) : Bool :=
  isPrefixPath d p && decide (d.length < p.length)

/-- "not any(operation_dir.iterdir())": nothing (file or directory) lies
strictly inside d. -/
def FS.dirEmpty (fs : FS) (d : FSPath) : Bool :=
  fs.files.all (fun e => !underDir d e.1) && fs.dirs.all (fun q => !underDir d q)

def parentPath (p : FSPath) : FSPath := p.dropLast

/-- ASCII lowering of one character, as Python str.lower acts on the ASCII
range (paths in the claims are ASCII). -/
def lowerChar (c : Char) : Char :=
  if 65 ≤ c.toNat && c.toNat ≤ 90 then Char.ofNat (c.toNat + 32) else c

def lowerChars (cs : List Char) : List Char := cs.map lowerChar

/-- Python's "needle in hay" on strings, over explicit character lists. -/
def listContains (hay needle : List Char) : Bool :=
  (List.range (hay.length + 1)).any
    (fun i => decide ((hay.drop i).take needle.length = needle))

/-- str(path): components joined by the separator "/". -/
def compChars : PathComp → List Char
  | .str s => s.data
  | .opdir n => (Nat.repr n).data

def pathChars : FSPath → List Char
  | [] => []
  | [c] => compChars c
  | c :: rest => compChars c ++ '/' :: pathChars rest

/-- Config (config.py): only the protected_folders setting matters for the
claims; get_staging_dir and get_operations_log always return the fixed
DEFAULT_STAGING_DIR / DEFAULT_OPERATIONS_LOG constants. -/
structure Config where
  protected_folders : List String
deriving DecidableEq

/-- Config.DEFAULT_SETTINGS["protected_folders"]. -/
def defaultConfig : Config :=
  { protected_folders := ["Family Photos", "Wedding", "Kids", "Vacation", "Important"] }

/-- Config.is_path_protected (config.py lines 136-150): some protected
token, lowercased, occurs as a substring of the lowercased str(path). -/
def Config.is_path_protected (cfg : Config) (p : FSPath) : Bool :=
  cfg.protected_folders.any
    (fun tok => listContains (lowerChars (pathChars p)) (lowerChars tok.data))

/-- Config.DEFAULT_STAGING_DIR = ~/.image-organizer/staging
(home-relative components). -/
def stagingDir : FSPath := [PathComp.str ".image-organizer", PathComp.str "staging"]

/-- operation_id = datetime.now().strftime("%Y%m%d_%H%M%S"): the current
time truncated to whole seconds.  Time t is in microseconds. -/
def opIdOfTime (t : Nat) : Nat := t / 1000000

/-- self.staging_dir / operation_id. -/
def opDirPath (oid : Nat) : FSPath := stagingDir ++ [PathComp.opdir oid]

/-- operation_dir / "operation.json". -/
def metaFilePath (oid : Nat) : FSPath := opDirPath oid ++ [PathComp.str "operation.json"]

/-- pathlib stem/suffix of a file name: split at the last dot when that dot
is neither the first nor the last character, else suffix is empty. -/
def lastDotIdx (cs : List Char) : Option Nat :=
  (List.range cs.length).foldl
    (fun acc i => if cs.getD i ' ' = '.' then some i else acc) none

def splitExt (cs : List Char) : List Char × List Char :=
  match lastDotIdx cs with
  | some i => if 0 < i && i + 1 < cs.length then (cs.take i, cs.drop i) else (cs, [])
  | none => (cs, [])

/-- f-string "{stem}_{counter}{suffix}" from the conflict loop. -/
def numberedName (cs : List Char) (k : Nat) : List Char :=
  (splitExt cs).1 ++ ('_' :: (Nat.repr k).data) ++ (splitExt cs).2

/-- The candidate staged path for counter k (k = 0 is the plain name). -/
def stagedCandidate (opDir : FSPath) (name : List Char) (k : Nat) : FSPath :=
  if k = 0 then opDir ++ [PathComp.str (String.mk name)]
  else opDir ++ [PathComp.str (String.mk (numberedName name k))]

/-- The "while staged_path.exists()" conflict loop of stage_for_deletion.
Structurally bounded by fuel; the call site passes more fuel than there
are filesystem entries, so the first free candidate is always found
exactly as in Python. -/
def resolveConflict (fs : FS) (opDir : FSPath) (name : List Char) :
    Nat → Nat → FSPath
  | 0, k => stagedCandidate opDir name k
  | fuel + 1, k =>
    if fs.pathExists (stagedCandidate opDir name k) then
      resolveConflict fs opDir name fuel (k + 1)
    else stagedCandidate opDir name k

/-- file_path.name: the last component's characters. -/
def lastName : FSPath → Option (List Char)
  | [] => none
  | [c] => some (compChars c)
  | _ :: rest => lastName rest

/-- Size recorded by staged_path.stat().st_size; descriptor files never
appear as staged entries along the executed paths that the claims touch. -/
def contentSize : Content → Nat
  | .bytes bs => bs.length
  | .descriptor _ => 0

/-- The per-file loop of stage_for_deletion (staging.py lines 64-103),
in input order.  moveFails is the environment's choice of which
shutil.move calls raise (the except branch logs and continues, leaving no
entry); an exception raised by move leaves the file in place. -/
def stageLoop (cfg : Config) (t : Nat) (moveFails : FSPath → Bool) (opDir : FSPath) :
    List FSPath → FS → FS × List StagedEntry
  | [], fs => (fs, [])
  | p :: rest, fs =>
    if !fs.pathExists p then stageLoop cfg t moveFails opDir rest fs
    else if cfg.is_path_protected p then stageLoop cfg t moveFails opDir rest fs
    else if moveFails p then stageLoop cfg t moveFails opDir rest fs
    else
      match lastName p with
      | none => stageLoop cfg t moveFails opDir rest fs
      | some nm =>
        let fuel := fs.files.length + fs.dirs.length + 1
        let staged := resolveConflict fs opDir nm fuel 0
        let fs1 := fs.move p staged
        let entry : StagedEntry :=
          { original_path := p, staged_path := staged,
            size := contentSize ((fs1.lookup staged).getD (Content.bytes [])),
            timestamp := t }
        let r := stageLoop cfg t moveFails opDir rest fs1
        (r.1, entry :: r.2)

/-- Result of stage_for_deletion: the new filesystem and the returned
operation id; staged_files re-exposes the local staged_files list, which
is also stored verbatim in the descriptor. -/
structure StageOutcome where
  fs : FS
  operation_id : Nat
  staged_files : List StagedEntry
deriving DecidableEq

/-- SafeImageDeleter.stage_for_deletion (staging.py lines 34-127). -/
def stage_for_deletion (cfg : Config) (t : Nat) (moveFails : FSPath → Bool)
    (file_paths : List FSPath) (reason : String) (metadata : List (String × String))
    (fs : FS) : StageOutcome :=
  let oid := opIdOfTime t
  let odir := opDirPath oid
  let fs1 := fs.mkdirP odir
  let r := stageLoop cfg t moveFails odir file_paths fs1
  let meta : OperationMeta :=
    { operation_id := oid, timestamp := t, reason := reason,
      files_staged := r.2.length, files := r.2, metadata := metadata,
      status := "staged" }
  let fs2 := r.1.writeFile (metaFilePath oid) (Content.descriptor meta)
  let fs3 := fs2.logOp
    { timestamp := t, operation_id := oid, reason := reason,
      files_count := r.2.length, status := "staged" }
  { fs := fs3, operation_id := oid, staged_files := r.2 }

structure UndoOutcome where
  fs : FS
  result : Bool
  restored : Nat
deriving DecidableEq

/-- The per-file loop of undo_staging (staging.py lines 155-177). -/
def undoLoop : List StagedEntry → FS → FS × Nat
  | [], fs => (fs, 0)
  | e :: rest, fs =>
    if !fs.pathExists e.staged_path then undoLoop rest fs
    else if (fs.mkdirP (parentPath e.original_path)).pathExists e.original_path then
      undoLoop rest (fs.mkdirP (parentPath e.original_path))
    else
      ((undoLoop rest ((fs.mkdirP (parentPath e.original_path)).move
          e.staged_path e.original_path)).1,
       (undoLoop rest ((fs.mkdirP (parentPath e.original_path)).move
          e.staged_path e.original_path)).2 + 1)

/-- SafeImageDeleter.undo_staging (staging.py lines 129-195).  The three
False exits (operation dir missing, operation.json missing, json.load
failure on non-descriptor content) are merged into the fall-through
branches. -/
def undo_staging (t : Nat) (oid : Nat) (fs : FS) : UndoOutcome :=
  if !fs.pathExists (opDirPath oid) then { fs := fs, result := false, restored := 0 }
  else
    match fs.lookup (metaFilePath oid) with
    | some (Content.descriptor m) =>
      let r := undoLoop m.files fs
      let m2 : OperationMeta :=
        { m with status := "undone", undo_timestamp := some t,
                 files_restored := some r.2 }
      { fs := r.1.writeFile (metaFilePath oid) (Content.descriptor m2),
        result := decide (0 < r.2), restored := r.2 }
    | _ => { fs := fs, result := false, restored := 0 }

structure ConfirmOutcome where
  fs : FS
  result : Bool
  deleted : Nat
deriving DecidableEq

/-- The per-file loop of confirm_deletion (staging.py lines 228-247). -/
def confirmLoop (useRecycleBin : Bool) : List StagedEntry → FS → FS × Nat
  | [], fs => (fs, 0)
  | e :: rest, fs =>
    if !fs.pathExists e.staged_path then confirmLoop useRecycleBin rest fs
    else
      let fs1 := if useRecycleBin then fs.sendToTrash e.staged_path
                 else fs.unlink e.staged_path
      let r := confirmLoop useRecycleBin rest fs1
      (r.1, r.2 + 1)

/-- SafeImageDeleter.confirm_deletion (staging.py lines 197-271). -/
def confirm_deletion (t : Nat) (oid : Nat) (useRecycleBin : Bool) (fs : FS) :
    ConfirmOutcome :=
  if !fs.pathExists (opDirPath oid) then { fs := fs, result := false, deleted := 0 }
  else
    match fs.lookup (metaFilePath oid) with
    | some (Content.descriptor m) =>
      let r := confirmLoop useRecycleBin m.files fs
      let m2 : OperationMeta :=
        { m with status := "deleted", deletion_timestamp := some t,
                 files_deleted := some r.2, used_recycle_bin := some useRecycleBin }
      let fs2 := r.1.writeFile (metaFilePath oid) (Content.descriptor m2)
      let fs3 := if fs2.dirEmpty (opDirPath oid) then fs2.rmdir (opDirPath oid) else fs2
      { fs := fs3, result := decide (0 < r.2), deleted := r.2 }
    | _ => { fs := fs, result := false, deleted := 0 }

/-- The status field of the descriptor of operation oid, when readable. -/
def statusAt (fs : FS) (oid : Nat) : Option String :=
  match fs.lookup (metaFilePath oid) with
  | some (Content.descriptor m) => some m.status
  | _ => none

/-! Cross-platform duplicate detection (cross_platform.py). -/

/-- FileInfo dataclass (cross_platform.py lines 13-23). -/
structure FileInfo where
  platform : String
  path : String
  name : String
  size : Nat
  md5 : String
  modified : Option String := none
  drive_url : Option String := none
deriving DecidableEq

/-- CrossPlatformDuplicate dataclass (cross_platform.py lines 26-49). -/
structure CrossPlatformDuplicate where
  md5 : String
  name : String
  size : Nat
  local_files : List FileInfo
  drive_files : List FileInfo
deriving DecidableEq

/-- CrossPlatformDuplicate.total_files. -/
def CrossPlatformDuplicate.total_files (d : CrossPlatformDuplicate) : Nat :=
  d.local_files.length + d.drive_files.length

/-- CrossPlatformDuplicate.local_space. -/
def CrossPlatformDuplicate.local_space (d : CrossPlatformDuplicate) : Nat :=
  (d.local_files.map FileInfo.size).sum

/-- CrossPlatformDuplicate.drive_space. -/
def CrossPlatformDuplicate.drive_space (d : CrossPlatformDuplicate) : Nat :=
  (d.drive_files.map FileInfo.size).sum

/-- Detector pools: md5 to the list of FileInfo records added under it,
as insertion-ordered association lists (Python dicts preserve insertion
order; add_local_file / add_drive_file always append to a list value). -/
structure CrossPlatformDetector where
  local_files : List (String × List FileInfo)
  drive_files : List (String × List FileInfo)
deriving DecidableEq

def poolFind (pool : List (String × List FileInfo)) (k : String) :
    Option (List FileInfo) :=
  (pool.find? (fun e => decide (e.1 = k))).map (fun e => e.2)

/-- The comparison used by "duplicates.sort(key=lambda d: d.size,
reverse=True)": descending on the size field, which stage line 174 fills
with the first local record's size. -/
def bySizeDesc (a b : CrossPlatformDuplicate) : Prop := b.size ≤ a.size

instance : DecidableRel bySizeDesc := fun a b => Nat.decLe b.size a.size

instance : IsTotal CrossPlatformDuplicate bySizeDesc :=
  ⟨fun a b => le_total b.size a.size⟩

instance : IsTrans CrossPlatformDuplicate bySizeDesc :=
  ⟨fun _ _ _ hab hbc => le_trans hbc hab⟩

/-- CrossPlatformDetector.find_cross_platform_duplicates (cross_platform.py
lines 141-183).  Python iterates the hash-set intersection of the key
sets, whose order the language leaves unspecified; the embedding fixes the
traversal to the local pool's insertion order (every property proved below
is insensitive to that choice).  A pool entry with an empty record list
would raise IndexError at local_list[0] in Python and is skipped here;
entries built by the add functions are never empty.  list.sort with
reverse=True is a stable descending sort, which insertion sort with the
total relation bySizeDesc implements. -/
def CrossPlatformDetector.find_cross_platform_duplicates
    (d : CrossPlatformDetector) : List CrossPlatformDuplicate :=
  let common := d.local_files.filter (fun e => (poolFind d.drive_files e.1).isSome)
  let dups := common.filterMap (fun e =>
    match e.2, poolFind d.drive_files e.1 with
    | lf :: lrest, some dl =>
      some { md5 := e.1, name := lf.name, size := lf.size,
             local_files := lf :: lrest, drive_files := dl }
    | _, _ => none)
  dups.insertionSort bySizeDesc

/-! Descriptor rewrite, at the granularity of file-system micro-steps.
undo_staging (staging.py lines 184-185) and confirm_deletion (lines
255-256) rewrite operation.json with

    with open(metadata_file, "w", encoding="utf-8") as f:
        json.dump(operation_metadata, f, indent=2)

Opening an existing file with mode "w" truncates it in place first; the
new JSON is written afterwards.  No temporary file or rename is involved. -/

inductive WriteStep where
  | openTruncate
  | writeAll (c : Content)
deriving DecidableEq

/-- The micro-steps of the descriptor rewrite as the source performs it:
truncate in place, then write the new serialised descriptor. -/
def descriptorUpdateSteps (m : OperationMeta) : List WriteStep :=
  [WriteStep.openTruncate, WriteStep.writeAll (Content.descriptor m)]

def applyStep (_cur : Option Content) : WriteStep → Option Content
  | WriteStep.openTruncate => some (Content.bytes [])
  | WriteStep.writeAll c => some c

/-- Everything a concurrent reader of the descriptor can observe: the
content before the update and after each micro-step. -/
def observableStates (old : Option Content) (steps : List WriteStep) :
    List (Option Content) :=
  steps.scanl applyStep old

/-- Modelled from the spec: "atomic-replace writes for descriptor updates
to avoid a reader observing a half-written file" — an update is an atomic
replace when every observable state is the old or the new content. -/
def specAtomicReplace (old new : Option Content) (steps : List WriteStep) : Prop :=
  ∀ c ∈ observableStates old steps, c = old ∨ c = new

instance (old new : Option Content) (steps : List WriteStep) :
    Decidable (specAtomicReplace old new steps) :=
  List.decidableBAll (fun c => c = old ∨ c = new) (observableStates old steps)

/-! Concrete scenarios used by the closed theorems below. -/

def exC1p : FSPath := [PathComp.str "photos", PathComp.str "operation.json"]

def exC1fs : FS :=
  { files := [(exC1p, Content.bytes [1, 2, 3])],
    dirs := [[PathComp.str "photos"]], trash := [], opsLog := [] }

def exC1stage : StageOutcome :=
  stage_for_deletion defaultConfig 0 (fun _ => false) [exC1p] "duplicate" [] exC1fs

def exC1undo : UndoOutcome := undo_staging 1 exC1stage.operation_id exC1stage.fs

def exC3fs : FS :=
  { files := [([PathComp.str "pics", PathComp.str "a.jpg"], Content.bytes [7])],
    dirs := [[PathComp.str "pics"]], trash := [], opsLog := [] }

def exC3stage : StageOutcome :=
  stage_for_deletion defaultConfig 0 (fun _ => false)
    [[PathComp.str "pics", PathComp.str "a.jpg"]] "duplicate" [] exC3fs

def exC3confirm : ConfirmOutcome := confirm_deletion 1 exC3stage.operation_id true exC3stage.fs

def exC3undo : UndoOutcome := undo_staging 2 exC3stage.operation_id exC3confirm.fs

def exC5old : OperationMeta :=
  { operation_id := 0, timestamp := 0, reason := "duplicate", files_staged := 0,
    files := [], metadata := [], status := "staged" }

def exC5new : OperationMeta := { exC5old with status := "undone" }

def exC6fs : FS :=
  { files := [([PathComp.str "pics", PathComp.str "a.jpg"], Content.bytes [1]),
              ([PathComp.str "pics", PathComp.str "b.jpg"], Content.bytes [2, 2])],
    dirs := [[PathComp.str "pics"]], trash := [], opsLog := [] }

def exC6stage : StageOutcome :=
  stage_for_deletion defaultConfig 0 (fun _ => false)
    [[PathComp.str "pics", PathComp.str "a.jpg"],
     [PathComp.str "pics", PathComp.str "b.jpg"]] "duplicate" [] exC6fs

def exC6confirm : ConfirmOutcome := confirm_deletion 1 exC6stage.operation_id true exC6stage.fs

def exC9localA : FileInfo :=
  { platform := "local", path := "/p/a.jpg", name := "a.jpg", size := 10, md5 := "h1" }

def exC9driveA : FileInfo :=
  { platform := "drive", path := "idA", name := "a.jpg", size := 10, md5 := "h1" }

def exC9localB (i : Nat) : FileInfo :=
  { platform := "local", path := "/p/b" ++ Nat.repr i ++ ".jpg", name := "b.jpg",
    size := 8, md5 := "h2" }

def exC9driveB : FileInfo :=
  { platform := "drive", path := "idB", name := "b.jpg", size := 8, md5 := "h2" }

def exC9det : CrossPlatformDetector :=
  { local_files := [("h1", [exC9localA]), ("h2", [exC9localB 1, exC9localB 2, exC9localB 3])],
    drive_files := [("h1", [exC9driveA]), ("h2", [exC9driveB])] }

/-! Closed theorems settled by evaluation. -/

/-- C1: the claimed round trip fails on the code.  Staging the existing,
unprotected file photos/operation.json and undoing the returned operation
reports success, yet the file comes back with different content: the
descriptor write truncated the staged copy (operation.json is written into
the same directory under the same name), so undo restores descriptor bytes
instead of the original [1, 2, 3]. -/
theorem C1_operation_json_destroys_content :
    defaultConfig.is_path_protected exC1p = false ∧
    exC1fs.fileExists exC1p = true ∧
    exC1undo.result = true ∧
    exC1undo.fs.lookup exC1p ≠ some (Content.bytes [1, 2, 3]) := by decide

/-- C3, counterexample to the claim as stated: after stage and
confirm_deletion the operation's status is "deleted", but a subsequent
undo_staging call rewrites it to "undone" — "deleted" is not terminal. -/
theorem C3_counterexample :
    statusAt exC3confirm.fs 0 = some "deleted" ∧
    statusAt exC3undo.fs 0 = some "undone" := by decide

/-- C4, counterexample to the claim as stated: two stage_for_deletion
calls at distinct times inside the same wall-clock second (here 100 and
999999 microseconds) are assigned the same operation_id, because the id is
the time formatted at second granularity. -/
theorem C4_counterexample :
    (stage_for_deletion defaultConfig 100 (fun _ => false) [] "duplicate" [] exC1fs).operation_id
      = (stage_for_deletion defaultConfig 999999 (fun _ => false) [] "duplicate" [] exC1fs).operation_id
    ∧ (100 : Nat) ≠ 999999 := by decide

/-- C5, counterexample to the claim as stated: the descriptor rewrite
performed by undo/confirm (truncate in place, then write) is not an atomic
replace — at a concrete old and new descriptor, a reader between the two
micro-steps observes an empty file that is neither of them. -/
theorem C5_counterexample :
    ¬ specAtomicReplace (some (Content.descriptor exC5old))
      (some (Content.descriptor exC5new)) (descriptorUpdateSteps exC5new) := by decide

/-- C6: the code violates the claim.  Confirming a fresh two-file staging
operation with the recycle bin does move both staged files to the trash,
sets the status to "deleted" and returns true, but the per-operation
staging subdirectory is NOT removed: the rewritten operation.json keeps it
non-empty, so the cleanup guard is always false. -/
theorem C6_confirm_keeps_operation_dir :
    exC6confirm.fs.trash.length = 2 ∧
    statusAt exC6confirm.fs 0 = some "deleted" ∧
    exC6confirm.result = true ∧
    exC6confirm.fs.dirEmpty (opDirPath 0) = false ∧
    exC6confirm.fs.dirExists (opDirPath 0) = true ∧
    exC6confirm.fs.lookup (metaFilePath 0) ≠ none := by decide

/-- C9, counterexample to the claim as stated: with two duplicate groups
of total sizes 20 and 32 whose first local records have sizes 10 and 8,
find_cross_platform_duplicates returns them in total-size order [20, 32],
which is not descending — the code sorts by the first local record's size,
not by total size. -/
theorem C9_counterexample :
    (exC9det.find_cross_platform_duplicates.map
      (fun g => g.local_space + g.drive_space)) = [20, 32] ∧
    ¬ List.Pairwise
      (fun a b : CrossPlatformDuplicate =>
        b.local_space + b.drive_space ≤ a.local_space + a.drive_space)
      exC9det.find_cross_platform_duplicates := by decide

/-! Basic filesystem lemmas. -/

theorem find?_filter_ne (l : List (FSPath × Content)) (p q : FSPath) (h : ¬ q = p) :
    List.find? (fun e => decide (e.1 = q)) (l.filter (fun e => decide (¬ e.1 = p)))
      = List.find? (fun e => decide (e.1 = q)) l := by
  induction l with
  | nil => rfl
  | cons a l ih =>
    by_cases ha : a.1 = p
    · rw [List.filter_cons_of_neg (by simp [ha]), ih,
        List.find?_cons_of_neg _ (by simp [ha]; intro hq; exact h hq.symm)]
    · rw [List.filter_cons_of_pos (by simp [ha])]
      by_cases hq : a.1 = q
      · rw [List.find?_cons_of_pos _ (by simp [hq]), List.find?_cons_of_pos _ (by simp [hq])]
      · rw [List.find?_cons_of_neg _ (by simp [hq]), List.find?_cons_of_neg _ (by simp [hq]), ih]

theorem FS.lookup_writeFile (fs : FS) (p q : FSPath) (c : Content) :
    (fs.writeFile p c).lookup q = if q = p then some c else fs.lookup q := by
  by_cases hq : q = p
  · subst hq
    simp [FS.lookup, FS.writeFile, List.find?_cons_of_pos]
  · simp only [FS.lookup, FS.writeFile, if_neg hq]
    rw [List.find?_cons_of_neg _ (by simp; intro hpq; exact hq (by rw [hpq])),
      find?_filter_ne _ _ _ hq]

theorem FS.lookup_writeFile_self (fs : FS) (p : FSPath) (c : Content) :
    (fs.writeFile p c).lookup p = some c := by
  rw [FS.lookup_writeFile, if_pos rfl]

theorem FS.lookup_writeFile_ne (fs : FS) (p q : FSPath) (c : Content) (h : ¬ q = p) :
    (fs.writeFile p c).lookup q = fs.lookup q := by
  rw [FS.lookup_writeFile, if_neg h]

theorem FS.lookup_removeFile (fs : FS) (p q : FSPath) :
    (fs.removeFile p).lookup q = if q = p then none else fs.lookup q := by
  by_cases hq : q = p
  · subst hq
    simp only [FS.lookup, FS.removeFile, if_pos rfl]
    rw [List.find?_eq_none.2]
    · rfl
    · intro e he
      simp only [List.mem_filter] at he
      simp only [decide_eq_true_eq] at he ⊢
      exact he.2
  · simp only [FS.lookup, FS.removeFile, if_neg hq]
    rw [find?_filter_ne _ _ _ hq]

theorem FS.lookup_move (fs : FS) (src dst q : FSPath)
    (h1 : ¬ q = src) (h2 : ¬ q = dst) :
    (fs.move src dst).lookup q = fs.lookup q := by
  unfold FS.move
  cases hl : fs.lookup src with
  | none => rfl
  | some c =>
    rw [FS.lookup_writeFile_ne _ _ _ _ h2, FS.lookup_removeFile, if_neg h1]

theorem FS.lookup_mkdirP (fs : FS) (d q : FSPath) :
    (fs.mkdirP d).lookup q = fs.lookup q := rfl

theorem FS.lookup_rmdir (fs : FS) (d q : FSPath) :
    (fs.rmdir d).lookup q = fs.lookup q := rfl

theorem FS.lookup_logOp (fs : FS) (r : LogRecord) (q : FSPath) :
    (fs.logOp r).lookup q = fs.lookup q := rfl

theorem FS.lookup_sendToTrash_ne (fs : FS) (p q : FSPath) (h : ¬ q = p) :
    (fs.sendToTrash p).lookup q = fs.lookup q := by
  unfold FS.sendToTrash
  cases hl : fs.lookup p with
  | none => rfl
  | some c =>
    show FS.lookup { fs with files := _, trash := _ } q = fs.lookup q
    simp only [FS.lookup]
    rw [find?_filter_ne _ _ _ h]

theorem FS.lookup_unlink_ne (fs : FS) (p q : FSPath) (h : ¬ q = p) :
    (fs.unlink p).lookup q = fs.lookup q := by
  unfold FS.unlink
  rw [FS.lookup_removeFile, if_neg h]

theorem FS.fileExists_writeFile (fs : FS) (p q : FSPath) (c : Content) :
    (fs.writeFile p c).fileExists q = (decide (q = p) || fs.fileExists q) := by
  unfold FS.fileExists
  rw [FS.lookup_writeFile]
  by_cases hq : q = p <;> simp [hq]

theorem FS.fileExists_mkdirP (fs : FS) (d q : FSPath) :
    (fs.mkdirP d).fileExists q = fs.fileExists q := rfl

theorem FS.dirExists_writeFile (fs : FS) (p q : FSPath) (c : Content) :
    (fs.writeFile p c).dirExists q = fs.dirExists q := rfl

theorem FS.dirExists_move (fs : FS) (src dst q : FSPath) :
    (fs.move src dst).dirExists q = fs.dirExists q := by
  unfold FS.move
  cases hl : fs.lookup src <;> rfl

theorem FS.dirExists_mkdirP_mono (fs : FS) (d q : FSPath)
    (h : fs.dirExists q = true) : (fs.mkdirP d).dirExists q = true := by
  unfold FS.dirExists at h ⊢
  unfold FS.mkdirP
  simp only [List.any_append]
  rw [h]
  simp

theorem FS.dirExists_mkdirP_cases (fs : FS) (d q : FSPath)
    (h : (fs.mkdirP d).dirExists q = true) :
    fs.dirExists q = true ∨ q ∈ pathPrefixes d := by
  unfold FS.dirExists FS.mkdirP at h
  simp only [List.any_append, Bool.or_eq_true] at h
  cases h with
  | inl h =>
    right
    simp only [List.any_eq_true, decide_eq_true_eq] at h
    obtain ⟨x, hx, hxq⟩ := h
    exact hxq ▸ (List.mem_filter.1 hx).1
  | inr h => exact Or.inl h

theorem FS.pathExists_mkdirP_mono (fs : FS) (d q : FSPath)
    (h : fs.pathExists q = true) : (fs.mkdirP d).pathExists q = true := by
  unfold FS.pathExists at h ⊢
  rw [FS.fileExists_mkdirP]
  simp only [Bool.or_eq_true] at h ⊢
  cases h with
  | inl h => exact Or.inl h
  | inr h => exact Or.inr (FS.dirExists_mkdirP_mono _ _ _ h)

theorem FS.fileExists_move_of_ne (fs : FS) (src dst q : FSPath)
    (h1 : ¬ q = src) (h2 : ¬ q = dst) :
    (fs.move src dst).fileExists q = fs.fileExists q := by
  unfold FS.fileExists
  rw [FS.lookup_move _ _ _ _ h1 h2]

theorem FS.fileExists_move_dst (fs : FS) (src dst : FSPath)
    (h : fs.fileExists src = true) : (fs.move src dst).fileExists dst = true := by
  unfold FS.fileExists at h ⊢
  unfold FS.move
  cases hl : fs.lookup src with
  | none => rw [hl] at h; exact absurd h (by simp)
  | some c => rw [FS.lookup_writeFile_self]; rfl

theorem FS.fileExists_move_mono (fs : FS) (src dst q : FSPath)
    (hs : ¬ q = src) (h : fs.fileExists q = true) :
    (fs.move src dst).fileExists q = true := by
  unfold FS.move
  cases hl : fs.lookup src with
  | none => exact h
  | some c =>
    by_cases hd : q = dst
    · subst hd
      rw [FS.fileExists_writeFile]
      simp
    · rw [FS.fileExists_writeFile]
      simp only [decide_eq_false hd, Bool.false_or]
      unfold FS.fileExists
      rw [FS.lookup_removeFile, if_neg hs]
      exact h

theorem FS.pathExists_move_mono (fs : FS) (src dst q : FSPath)
    (hs : ¬ q = src) (h : fs.pathExists q = true) :
    (fs.move src dst).pathExists q = true := by
  unfold FS.pathExists at h ⊢
  rw [FS.dirExists_move]
  simp only [Bool.or_eq_true] at h ⊢
  cases h with
  | inl h => exact Or.inl (FS.fileExists_move_mono fs src dst q hs h)
  | inr h => exact Or.inr h

/-! Path prefix lemmas. -/

theorem isPrefixPath_refl (p : FSPath) : isPrefixPath p p = true := by
  induction p with
  | nil => rfl
  | cons a p ih => simp [isPrefixPath, ih]

theorem isPrefixPath_append (d l : FSPath) : isPrefixPath d (d ++ l) = true := by
  induction d with
  | nil => rfl
  | cons a d ih => simp [isPrefixPath, ih]

theorem isPrefixPath_trans (a b c : FSPath)
    (h1 : isPrefixPath a b = true) (h2 : isPrefixPath b c = true) :
    isPrefixPath a c = true := by
  induction a generalizing b c with
  | nil => rfl
  | cons x a ih =>
    cases b with
    | nil => exact absurd h1 (by simp [isPrefixPath])
    | cons y b =>
      cases c with
      | nil => exact absurd h2 (by simp [isPrefixPath])
      | cons z c =>
        simp only [isPrefixPath, Bool.and_eq_true, decide_eq_true_eq] at h1 h2 ⊢
        exact ⟨h1.1.trans h2.1, ih b c h1.2 h2.2⟩

theorem isPrefixPath_length (a b : FSPath) (h : isPrefixPath a b = true) :
    a.length ≤ b.length := by
  induction a generalizing b with
  | nil => simp
  | cons x a ih =>
    cases b with
    | nil => exact absurd h (by simp [isPrefixPath])
    | cons y b =>
      simp only [isPrefixPath, Bool.and_eq_true] at h
      simpa [List.length_cons] using ih b h.2

theorem underDir_append (d : FSPath) (c : PathComp) :
    underDir d (d ++ [c]) = true := by
  unfold underDir
  rw [isPrefixPath_append]
  simp

theorem mem_pathPrefixes_isPrefix (q d : FSPath) (h : q ∈ pathPrefixes d) :
    isPrefixPath q d = true := by
  induction d generalizing q with
  | nil => exact absurd h (by simp [pathPrefixes])
  | cons a d ih =>
    simp only [pathPrefixes, List.mem_cons, List.mem_map] at h
    cases h with
    | inl h => subst h; simp [isPrefixPath, isPrefixPath_refl]  -- [a] prefix of a :: d
    | inr h =>
      obtain ⟨q0, hq0, hq⟩ := h
      subst hq
      simp only [isPrefixPath, Bool.and_eq_true, decide_eq_true_eq]
      exact ⟨by trivial, ih q0 hq0⟩

theorem isPrefixPath_dropLast (p : FSPath) :
    isPrefixPath (parentPath p) p = true := by
  unfold parentPath
  induction p with
  | nil => rfl
  | cons a p ih =>
    cases p with
    | nil => rfl
    | cons b p =>
      simp only [List.dropLast_cons₂, isPrefixPath, Bool.and_eq_true, decide_eq_true_eq]
      exact ⟨by trivial, ih⟩

/-- C5 as amended: the rewrite of operation.json opens the file with mode
"w", truncating it in place, then writes the new JSON; the reader-visible
states are exactly old, empty, new, and the intermediate empty state
witnesses that the update is never an atomic replace between two
descriptor states. -/
theorem C5_truncate_then_write (m0 m1 : OperationMeta) :
    observableStates (some (Content.descriptor m0)) (descriptorUpdateSteps m1)
      = [some (Content.descriptor m0), some (Content.bytes []),
         some (Content.descriptor m1)] ∧
    ¬ specAtomicReplace (some (Content.descriptor m0))
      (some (Content.descriptor m1)) (descriptorUpdateSteps m1) := by
  refine ⟨rfl, fun h => ?_⟩
  rcases h (some (Content.bytes [])) (by simp [observableStates, descriptorUpdateSteps,
    List.scanl, applyStep]) with h1 | h1 <;> simp at h1

/-! Operation ids (C4). -/

theorem stage_operation_id (cfg : Config) (t : Nat) (mf : FSPath → Bool)
    (fps : List FSPath) (r : String) (md : List (String × String)) (fs : FS) :
    (stage_for_deletion cfg t mf fps r md fs).operation_id = opIdOfTime t := rfl

theorem opDirPath_inj (a b : Nat) (h : opDirPath a = opDirPath b) : a = b := by
  unfold opDirPath at h
  have h2 := List.append_cancel_left h
  simpa using h2

/-- C4 as amended: operation ids are the staging time truncated to whole
seconds.  Two stage_for_deletion calls whose times fall in distinct
seconds receive strictly ordered, distinct operation ids and distinct
(therefore disjoint) staging subdirectories; the counterexample shows two
calls within one second colliding. -/
theorem C4_second_granularity_ids (cfg1 cfg2 : Config) (t1 t2 : Nat)
    (mf1 mf2 : FSPath → Bool) (fp1 fp2 : List FSPath) (r1 r2 : String)
    (md1 md2 : List (String × String)) (fs1 fs2 : FS)
    (h : opIdOfTime t1 < opIdOfTime t2) :
    (stage_for_deletion cfg1 t1 mf1 fp1 r1 md1 fs1).operation_id
      < (stage_for_deletion cfg2 t2 mf2 fp2 r2 md2 fs2).operation_id ∧
    (stage_for_deletion cfg1 t1 mf1 fp1 r1 md1 fs1).operation_id
      ≠ (stage_for_deletion cfg2 t2 mf2 fp2 r2 md2 fs2).operation_id ∧
    opDirPath (stage_for_deletion cfg1 t1 mf1 fp1 r1 md1 fs1).operation_id
      ≠ opDirPath (stage_for_deletion cfg2 t2 mf2 fp2 r2 md2 fs2).operation_id := by
  rw [stage_operation_id, stage_operation_id]
  exact ⟨h, Nat.ne_of_lt h, fun he => Nat.ne_of_lt h (opDirPath_inj _ _ he)⟩

/-- Witness for C4_second_granularity_ids at times one second apart. -/
theorem C4_witness :
    opIdOfTime 0 < opIdOfTime 1000000 ∧
    (stage_for_deletion defaultConfig 0 (fun _ => false) [] "duplicate" [] exC1fs).operation_id
      ≠ (stage_for_deletion defaultConfig 1000000 (fun _ => false) [] "duplicate" [] exC1fs).operation_id :=
  ⟨by decide,
   (C4_second_granularity_ids defaultConfig defaultConfig 0 1000000 (fun _ => false)
     (fun _ => false) [] [] "duplicate" "duplicate" [] [] exC1fs exC1fs (by decide)).2.1⟩

/-! General descriptor-rewrite lemmas for undo_staging and
confirm_deletion (C3, C10). -/

theorem undo_staging_descriptor (t oid : Nat) (fs : FS) (m : OperationMeta)
    (hd : fs.pathExists (opDirPath oid) = true)
    (hm : fs.lookup (metaFilePath oid) = some (Content.descriptor m)) :
    (undo_staging t oid fs).fs.lookup (metaFilePath oid)
      = some (Content.descriptor
          { m with status := "undone", undo_timestamp := some t,
                   files_restored := some (undo_staging t oid fs).restored }) := by
  unfold undo_staging
  rw [hd, hm]
  simp only [Bool.not_true, Bool.false_eq_true, if_false]
  exact FS.lookup_writeFile_self _ _ _

theorem lookup_rmdir_branch (x : FS) (dd q : FSPath) :
    (if x.dirEmpty dd = true then x.rmdir dd else x).lookup q = x.lookup q := by
  by_cases h : x.dirEmpty dd = true
  · rw [if_pos h]
    rfl
  · rw [if_neg h]

theorem confirm_deletion_descriptor (t oid : Nat) (b : Bool) (fs : FS)
    (m : OperationMeta)
    (hd : fs.pathExists (opDirPath oid) = true)
    (hm : fs.lookup (metaFilePath oid) = some (Content.descriptor m)) :
    (confirm_deletion t oid b fs).fs.lookup (metaFilePath oid)
      = some (Content.descriptor
          { m with status := "deleted", deletion_timestamp := some t,
                   files_deleted := some (confirm_deletion t oid b fs).deleted,
                   used_recycle_bin := some b }) := by
  unfold confirm_deletion
  rw [hd, hm]
  simp only [Bool.not_true, Bool.false_eq_true, if_false]
  rw [lookup_rmdir_branch, FS.lookup_writeFile_self]

/-- C3 as amended: whenever undo_staging manages to load an operation's
descriptor it sets the status to "undone", and whenever confirm_deletion
loads it it sets the status to "deleted", regardless of the current
status.  With the counterexample (deleted, then undone again) this settles
the claimed terminality: neither "undone" nor "deleted" is terminal. -/
theorem C3_status_overwrite (t oid : Nat) (fs : FS) (m : OperationMeta)
    (hd : fs.pathExists (opDirPath oid) = true)
    (hm : fs.lookup (metaFilePath oid) = some (Content.descriptor m)) :
    statusAt (undo_staging t oid fs).fs oid = some "undone" ∧
    (∀ b : Bool, statusAt (confirm_deletion t oid b fs).fs oid = some "deleted") := by
  constructor
  · unfold statusAt
    rw [undo_staging_descriptor t oid fs m hd hm]
  · intro b
    unfold statusAt
    rw [confirm_deletion_descriptor t oid b fs m hd hm]

/-- Witness for C3_status_overwrite on a concrete staged operation. -/
theorem C3_witness :
    exC3stage.fs.pathExists (opDirPath 0) = true ∧
    exC3stage.fs.lookup (metaFilePath 0) = some (Content.descriptor
      { operation_id := 0, timestamp := 0, reason := "duplicate", files_staged := 1,
        files := [{ original_path := [PathComp.str "pics", PathComp.str "a.jpg"],
                    staged_path := opDirPath 0 ++ [PathComp.str "a.jpg"],
                    size := 1, timestamp := 0 }],
        metadata := [], status := "staged" }) ∧
    statusAt (undo_staging 5 0 exC3stage.fs).fs 0 = some "undone" :=
  ⟨by decide, by decide,
   (C3_status_overwrite 5 0 exC3stage.fs
     { operation_id := 0, timestamp := 0, reason := "duplicate", files_staged := 1,
       files := [{ original_path := [PathComp.str "pics", PathComp.str "a.jpg"],
                   staged_path := opDirPath 0 ++ [PathComp.str "a.jpg"],
                   size := 1, timestamp := 0 }],
       metadata := [], status := "staged" } (by decide) (by decide)).1⟩

/-- C10: a successful descriptor load followed by the rewrite of undo or
confirm preserves operation_id, timestamp, reason, files_staged, the files
array and the metadata unchanged; only status and the transition fields
(undo_timestamp/files_restored for undo, deletion_timestamp/files_deleted/
used_recycle_bin for confirm) are changed or added. -/
theorem C10_descriptor_frame (t oid : Nat) (b : Bool) (fs : FS) (m : OperationMeta)
    (hd : fs.pathExists (opDirPath oid) = true)
    (hm : fs.lookup (metaFilePath oid) = some (Content.descriptor m)) :
    (∃ m1 : OperationMeta,
      (undo_staging t oid fs).fs.lookup (metaFilePath oid)
        = some (Content.descriptor m1) ∧
      m1.operation_id = m.operation_id ∧ m1.timestamp = m.timestamp ∧
      m1.reason = m.reason ∧ m1.files_staged = m.files_staged ∧
      m1.files = m.files ∧ m1.metadata = m.metadata ∧
      m1.status = "undone" ∧ m1.undo_timestamp = some t ∧
      m1.files_restored = some (undo_staging t oid fs).restored ∧
      m1.deletion_timestamp = m.deletion_timestamp ∧
      m1.files_deleted = m.files_deleted ∧
      m1.used_recycle_bin = m.used_recycle_bin) ∧
    (∃ m2 : OperationMeta,
      (confirm_deletion t oid b fs).fs.lookup (metaFilePath oid)
        = some (Content.descriptor m2) ∧
      m2.operation_id = m.operation_id ∧ m2.timestamp = m.timestamp ∧
      m2.reason = m.reason ∧ m2.files_staged = m.files_staged ∧
      m2.files = m.files ∧ m2.metadata = m.metadata ∧
      m2.status = "deleted" ∧ m2.deletion_timestamp = some t ∧
      m2.files_deleted = some (confirm_deletion t oid b fs).deleted ∧
      m2.used_recycle_bin = some b ∧
      m2.undo_timestamp = m.undo_timestamp ∧
      m2.files_restored = m.files_restored) := by
  constructor
  · exact ⟨_, undo_staging_descriptor t oid fs m hd hm,
      rfl, rfl, rfl, rfl, rfl, rfl, rfl, rfl, rfl, rfl, rfl, rfl⟩
  · exact ⟨_, confirm_deletion_descriptor t oid b fs m hd hm,
      rfl, rfl, rfl, rfl, rfl, rfl, rfl, rfl, rfl, rfl, rfl, rfl⟩

/-- The descriptor that exC6stage writes (two staged files). -/
def exC10meta : OperationMeta :=
  { operation_id := 0, timestamp := 0, reason := "duplicate", files_staged := 2,
    files := [{ original_path := [PathComp.str "pics", PathComp.str "a.jpg"],
                staged_path := opDirPath 0 ++ [PathComp.str "a.jpg"],
                size := 1, timestamp := 0 },
              { original_path := [PathComp.str "pics", PathComp.str "b.jpg"],
                staged_path := opDirPath 0 ++ [PathComp.str "b.jpg"],
                size := 2, timestamp := 0 }],
    metadata := [], status := "staged" }

/-- Witness for C10_descriptor_frame on a concrete staged operation. -/
theorem C10_witness :
    exC6stage.fs.pathExists (opDirPath 0) = true ∧
    exC6stage.fs.lookup (metaFilePath 0) = some (Content.descriptor exC10meta) ∧
    (∃ m1 : OperationMeta,
      (undo_staging 7 0 exC6stage.fs).fs.lookup (metaFilePath 0)
        = some (Content.descriptor m1) ∧
      m1.files = exC10meta.files ∧ m1.status = "undone") := by
  refine ⟨by decide, by decide, ?_⟩
  have h := C10_descriptor_frame 7 0 true exC6stage.fs exC10meta (by decide) (by decide)
  obtain ⟨⟨m1, hl, _, _, _, _, hfiles, _, hst, _⟩, _⟩ := h
  exact ⟨m1, hl, hfiles, hst⟩

/-! stage_for_deletion loop lemmas (C2, C8). -/

theorem FS.pathExists_move_of_ne (fs : FS) (src dst q : FSPath)
    (hs : ¬ q = src) (hd : ¬ q = dst) :
    (fs.move src dst).pathExists q = fs.pathExists q := by
  unfold FS.pathExists
  rw [FS.dirExists_move, FS.fileExists_move_of_ne _ _ _ _ hs hd]

theorem stagedCandidate_shape (opDir : FSPath) (nm : List Char) (k : Nat) :
    ∃ c, stagedCandidate opDir nm k = opDir ++ [c] := by
  by_cases h : k = 0
  · exact ⟨PathComp.str (String.mk nm), by rw [stagedCandidate, if_pos h]⟩
  · exact ⟨PathComp.str (String.mk (numberedName nm k)),
      by rw [stagedCandidate, if_neg h]⟩

theorem resolveConflict_shape (fs : FS) (opDir : FSPath) (nm : List Char) :
    ∀ fuel k, ∃ c, resolveConflict fs opDir nm fuel k = opDir ++ [c] := by
  intro fuel
  induction fuel with
  | zero => intro k; exact stagedCandidate_shape opDir nm k
  | succ n ih =>
    intro k
    unfold resolveConflict
    by_cases h : fs.pathExists (stagedCandidate opDir nm k) = true
    · rw [h]
      simpa using ih (k + 1)
    · rw [Bool.eq_false_iff.2 h]
      simpa using stagedCandidate_shape opDir nm k

theorem resolveConflict_underDir (fs : FS) (opDir : FSPath) (nm : List Char)
    (fuel k : Nat) :
    underDir opDir (resolveConflict fs opDir nm fuel k) = true := by
  obtain ⟨c, hc⟩ := resolveConflict_shape fs opDir nm fuel k
  rw [hc]
  exact underDir_append opDir c

/-- Step equations for stageLoop. -/

theorem stageLoop_cons_notfound (cfg : Config) (t : Nat) (mf : FSPath → Bool)
    (odir q : FSPath) (rest : List FSPath) (fs : FS)
    (h : fs.pathExists q = false) :
    stageLoop cfg t mf odir (q :: rest) fs = stageLoop cfg t mf odir rest fs := by
  conv_lhs => rw [stageLoop]
  rw [h]
  rfl

theorem stageLoop_cons_protected (cfg : Config) (t : Nat) (mf : FSPath → Bool)
    (odir q : FSPath) (rest : List FSPath) (fs : FS)
    (h1 : fs.pathExists q = true) (h2 : cfg.is_path_protected q = true) :
    stageLoop cfg t mf odir (q :: rest) fs = stageLoop cfg t mf odir rest fs := by
  conv_lhs => rw [stageLoop]
  rw [h1, h2]
  rfl

theorem stageLoop_cons_movefail (cfg : Config) (t : Nat) (mf : FSPath → Bool)
    (odir q : FSPath) (rest : List FSPath) (fs : FS)
    (h1 : fs.pathExists q = true) (h2 : cfg.is_path_protected q = false)
    (h3 : mf q = true) :
    stageLoop cfg t mf odir (q :: rest) fs = stageLoop cfg t mf odir rest fs := by
  conv_lhs => rw [stageLoop]
  rw [h1, h2, h3]
  rfl

theorem stageLoop_cons_noname (cfg : Config) (t : Nat) (mf : FSPath → Bool)
    (odir q : FSPath) (rest : List FSPath) (fs : FS)
    (h1 : fs.pathExists q = true) (h2 : cfg.is_path_protected q = false)
    (h3 : mf q = false) (h4 : lastName q = none) :
    stageLoop cfg t mf odir (q :: rest) fs = stageLoop cfg t mf odir rest fs := by
  conv_lhs => rw [stageLoop]
  rw [h1, h2, h3, h4]
  rfl

theorem stageLoop_cons_move (cfg : Config) (t : Nat) (mf : FSPath → Bool)
    (odir q : FSPath) (rest : List FSPath) (fs : FS) (nm : List Char)
    (h1 : fs.pathExists q = true) (h2 : cfg.is_path_protected q = false)
    (h3 : mf q = false) (h4 : lastName q = some nm) :
    stageLoop cfg t mf odir (q :: rest) fs =
      ((stageLoop cfg t mf odir rest
         (fs.move q (resolveConflict fs odir nm
           (fs.files.length + fs.dirs.length + 1) 0))).1,
       { original_path := q,
         staged_path := resolveConflict fs odir nm
           (fs.files.length + fs.dirs.length + 1) 0,
         size := contentSize (((fs.move q (resolveConflict fs odir nm
           (fs.files.length + fs.dirs.length + 1) 0)).lookup
             (resolveConflict fs odir nm
               (fs.files.length + fs.dirs.length + 1) 0)).getD (Content.bytes [])),
         timestamp := t }
         :: (stageLoop cfg t mf odir rest
              (fs.move q (resolveConflict fs odir nm
                (fs.files.length + fs.dirs.length + 1) 0))).2) := by
  conv_lhs => rw [stageLoop]
  rw [h1, h2, h3, h4]
  rfl

/-- The invariants of the per-file staging loop: (1) every recorded entry
is an existing-at-processing-time, unprotected, move-succeeding input and
its staged path lies inside the operation directory; (2) the content at a
protected path outside the operation directory is untouched; (3) a path
outside the operation directory that does not exist beforehand still does
not exist afterwards and never appears as an entry original path. -/
theorem stageLoop_facts (cfg : Config) (t : Nat) (mf : FSPath → Bool)
    (odir : FSPath) :
    ∀ (l : List FSPath) (fs : FS),
      (∀ e ∈ (stageLoop cfg t mf odir l fs).2,
          cfg.is_path_protected e.original_path = false ∧
          mf e.original_path = false ∧
          e.original_path ∈ l ∧
          underDir odir e.staged_path = true) ∧
      (∀ p : FSPath, underDir odir p = false → cfg.is_path_protected p = true →
          (stageLoop cfg t mf odir l fs).1.lookup p = fs.lookup p) ∧
      (∀ p : FSPath, underDir odir p = false → fs.pathExists p = false →
          (stageLoop cfg t mf odir l fs).1.pathExists p = false ∧
          (∀ e ∈ (stageLoop cfg t mf odir l fs).2, ¬ e.original_path = p)) := by
  intro l
  induction l with
  | nil =>
    intro fs
    refine ⟨by intro e he; exact absurd he (by simp [stageLoop]), ?_, ?_⟩
    · intro p _ _
      rfl
    · intro p _ hp
      exact ⟨hp, by intro e he; exact absurd he (by simp [stageLoop])⟩
  | cons q rest ih =>
    intro fs
    by_cases hex : fs.pathExists q = true
    case neg =>
      rw [stageLoop_cons_notfound cfg t mf odir q rest fs (Bool.eq_false_iff.2 hex)]
      obtain ⟨ih1, ih2, ih3⟩ := ih fs
      exact ⟨fun e he => by
          obtain ⟨a, b, c, d⟩ := ih1 e he
          exact ⟨a, b, List.mem_cons_of_mem q c, d⟩,
        ih2, fun p h1 h2 => ih3 p h1 h2⟩
    case pos =>
      by_cases hpr : cfg.is_path_protected q = true
      case pos =>
        rw [stageLoop_cons_protected cfg t mf odir q rest fs hex hpr]
        obtain ⟨ih1, ih2, ih3⟩ := ih fs
        exact ⟨fun e he => by
            obtain ⟨a, b, c, d⟩ := ih1 e he
            exact ⟨a, b, List.mem_cons_of_mem q c, d⟩,
          ih2, fun p h1 h2 => ih3 p h1 h2⟩
      case neg =>
        have hpr2 : cfg.is_path_protected q = false := Bool.eq_false_iff.2 hpr
        by_cases hmf : mf q = true
        case pos =>
          rw [stageLoop_cons_movefail cfg t mf odir q rest fs hex hpr2 hmf]
          obtain ⟨ih1, ih2, ih3⟩ := ih fs
          exact ⟨fun e he => by
              obtain ⟨a, b, c, d⟩ := ih1 e he
              exact ⟨a, b, List.mem_cons_of_mem q c, d⟩,
            ih2, fun p h1 h2 => ih3 p h1 h2⟩
        case neg =>
          have hmf2 : mf q = false := Bool.eq_false_iff.2 hmf
          cases hnm : lastName q with
          | none =>
            rw [stageLoop_cons_noname cfg t mf odir q rest fs hex hpr2 hmf2 hnm]
            obtain ⟨ih1, ih2, ih3⟩ := ih fs
            exact ⟨fun e he => by
                obtain ⟨a, b, c, d⟩ := ih1 e he
                exact ⟨a, b, List.mem_cons_of_mem q c, d⟩,
              ih2, fun p h1 h2 => ih3 p h1 h2⟩
          | some nm =>
            rw [stageLoop_cons_move cfg t mf odir q rest fs nm hex hpr2 hmf2 hnm]
            set staged := resolveConflict fs odir nm
              (fs.files.length + fs.dirs.length + 1) 0 with hstaged
            have hstagedU : underDir odir staged = true :=
              resolveConflict_underDir fs odir nm _ 0
            obtain ⟨ih1, ih2, ih3⟩ := ih (fs.move q staged)
            refine ⟨?_, ?_, ?_⟩
            · intro e he
              rcases List.mem_cons.1 he with he1 | he2
              · rw [he1]
                exact ⟨hpr2, hmf2, List.mem_cons_self q rest, hstagedU⟩
              · obtain ⟨a, b, c, d⟩ := ih1 e he2
                exact ⟨a, b, List.mem_cons_of_mem q c, d⟩
            · intro p h1 h2
              have hpq : ¬ p = q := by
                intro hpq
                rw [hpq, hpr2] at h2
                simp at h2
              have hpst : ¬ p = staged := by
                intro hp
                rw [hp, hstagedU] at h1
                simp at h1
              rw [ih2 p h1 h2, FS.lookup_move _ _ _ _ hpq hpst]
            · intro p h1 h2
              have hpq : ¬ p = q := by
                intro hpq
                rw [hpq, hex] at h2
                simp at h2
              have hpst : ¬ p = staged := by
                intro hp
                rw [hp, hstagedU] at h1
                simp at h1
              have h2m : (fs.move q staged).pathExists p = false := by
                rw [FS.pathExists_move_of_ne _ _ _ _ hpq hpst]
                exact h2
              obtain ⟨h3, h4⟩ := ih3 p h1 h2m
              refine ⟨h3, ?_⟩
              intro e he
              rcases List.mem_cons.1 he with he1 | he2
              · rw [he1]
                intro hcon
                exact hpq hcon.symm
              · exact h4 e he2

theorem FS.pathExists_mkdirP_of_notmem (fs : FS) (d q : FSPath)
    (h : fs.pathExists q = false) (hq : isPrefixPath q d = false) :
    (fs.mkdirP d).pathExists q = false := by
  have h2 : fs.fileExists q = false ∧ fs.dirExists q = false := by
    unfold FS.pathExists at h
    simpa using h
  unfold FS.pathExists
  rw [FS.fileExists_mkdirP, h2.1]
  cases hdd : (fs.mkdirP d).dirExists q with
  | false => rfl
  | true =>
    rcases FS.dirExists_mkdirP_cases fs d q hdd with hc | hc
    · rw [h2.2] at hc
      simp at hc
    · rw [mem_pathPrefixes_isPrefix q d hc] at hq
      simp at hq

theorem ne_of_underDir_out (d p : FSPath) (c : PathComp)
    (hout : underDir d p = false) : ¬ p = d ++ [c] := by
  intro hp
  rw [hp, underDir_append] at hout
  simp at hout

/-- C2: a path whose string form matches a protected token is never moved
by stage_for_deletion — it never appears among the recorded entries'
original paths and its content is untouched — provided the path does not
itself lie inside the fresh per-operation staging directory. -/
theorem C2_protected_never_staged (cfg : Config) (t : Nat) (mf : FSPath → Bool)
    (fps : List FSPath) (r : String) (md : List (String × String)) (fs : FS)
    (p : FSPath)
    (hp : cfg.is_path_protected p = true)
    (hout : underDir (opDirPath (opIdOfTime t)) p = false) :
    ¬ p ∈ ((stage_for_deletion cfg t mf fps r md fs).staged_files.map
        StagedEntry.original_path) ∧
    (stage_for_deletion cfg t mf fps r md fs).fs.lookup p = fs.lookup p := by
  obtain ⟨f1, f2, _⟩ := stageLoop_facts cfg t mf (opDirPath (opIdOfTime t)) fps
    (fs.mkdirP (opDirPath (opIdOfTime t)))
  have hmeta : ¬ p = metaFilePath (opIdOfTime t) :=
    ne_of_underDir_out _ _ _ hout
  constructor
  · intro hmem
    simp only [stage_for_deletion] at hmem
    rw [List.mem_map] at hmem
    obtain ⟨e, he, hep⟩ := hmem
    obtain ⟨hprot, _, _, _⟩ := f1 e he
    rw [hep] at hprot
    rw [hprot] at hp
    simp at hp
  · simp only [stage_for_deletion]
    rw [FS.lookup_logOp, FS.lookup_writeFile_ne _ _ _ _ hmeta,
      f2 p hout hp, FS.lookup_mkdirP]

def exC2p : FSPath := [PathComp.str "Wedding", PathComp.str "w.jpg"]

def exC2fs : FS :=
  { files := [(exC2p, Content.bytes [9]),
              ([PathComp.str "pics", PathComp.str "a.jpg"], Content.bytes [1])],
    dirs := [[PathComp.str "pics"], [PathComp.str "Wedding"]],
    trash := [], opsLog := [] }

/-- Witness for C2_protected_never_staged: the protected Wedding/w.jpg is
passed to stage together with an unprotected file and stays in place. -/
theorem C2_witness :
    defaultConfig.is_path_protected exC2p = true ∧
    underDir (opDirPath (opIdOfTime 0)) exC2p = false ∧
    ¬ exC2p ∈ ((stage_for_deletion defaultConfig 0 (fun _ => false)
        [exC2p, [PathComp.str "pics", PathComp.str "a.jpg"]] "duplicate" [] exC2fs).staged_files.map
        StagedEntry.original_path) ∧
    (stage_for_deletion defaultConfig 0 (fun _ => false)
        [exC2p, [PathComp.str "pics", PathComp.str "a.jpg"]] "duplicate" [] exC2fs).fs.lookup exC2p
      = exC2fs.lookup exC2p :=
  ⟨by decide, by decide,
   (C2_protected_never_staged defaultConfig 0 (fun _ => false)
     [exC2p, [PathComp.str "pics", PathComp.str "a.jpg"]] "duplicate" [] exC2fs exC2p
     (by decide) (by decide)).1,
   (C2_protected_never_staged defaultConfig 0 (fun _ => false)
     [exC2p, [PathComp.str "pics", PathComp.str "a.jpg"]] "duplicate" [] exC2fs exC2p
     (by decide) (by decide)).2⟩

/-- C8: stage_for_deletion never aborts the batch — it always returns the
fresh operation id (even with zero staged files) and writes a descriptor
with status "staged" recording exactly the staged_files list; every
recorded entry is an unprotected input whose move succeeded, and an input
that is missing beforehand (and unrelated to the staging directory), is
protected, or whose move fails is absent from the entries. -/
theorem C8_stage_skips_and_records (cfg : Config) (t : Nat) (mf : FSPath → Bool)
    (fps : List FSPath) (r : String) (md : List (String × String)) (fs : FS) :
    (stage_for_deletion cfg t mf fps r md fs).operation_id = opIdOfTime t ∧
    (stage_for_deletion cfg t mf fps r md fs).fs.lookup (metaFilePath (opIdOfTime t))
      = some (Content.descriptor
        { operation_id := opIdOfTime t, timestamp := t, reason := r,
          files_staged := (stage_for_deletion cfg t mf fps r md fs).staged_files.length,
          files := (stage_for_deletion cfg t mf fps r md fs).staged_files,
          metadata := md, status := "staged" }) ∧
    (∀ e ∈ (stage_for_deletion cfg t mf fps r md fs).staged_files,
        cfg.is_path_protected e.original_path = false ∧
        mf e.original_path = false ∧
        e.original_path ∈ fps) ∧
    (∀ p : FSPath, underDir (opDirPath (opIdOfTime t)) p = false →
        isPrefixPath p (opDirPath (opIdOfTime t)) = false →
        fs.pathExists p = false →
        ∀ e ∈ (stage_for_deletion cfg t mf fps r md fs).staged_files,
          ¬ e.original_path = p) := by
  obtain ⟨f1, _, f3⟩ := stageLoop_facts cfg t mf (opDirPath (opIdOfTime t)) fps
    (fs.mkdirP (opDirPath (opIdOfTime t)))
  refine ⟨rfl, ?_, ?_, ?_⟩
  · simp only [stage_for_deletion]
    rw [FS.lookup_logOp, FS.lookup_writeFile_self]
  · intro e he
    simp only [stage_for_deletion] at he
    obtain ⟨h1, h2, h3, _⟩ := f1 e he
    exact ⟨h1, h2, h3⟩
  · intro p h1 h2 h3 e he
    simp only [stage_for_deletion] at he
    have h4 : (fs.mkdirP (opDirPath (opIdOfTime t))).pathExists p = false :=
      FS.pathExists_mkdirP_of_notmem fs _ p h3 h2
    exact (f3 p h1 h4).2 e he

def exC8missing : FSPath := [PathComp.str "pics", PathComp.str "gone.jpg"]

def exC8prot : FSPath := [PathComp.str "Wedding", PathComp.str "x.jpg"]

def exC8fail : FSPath := [PathComp.str "pics", PathComp.str "f.jpg"]

def exC8ok : FSPath := [PathComp.str "pics", PathComp.str "ok.jpg"]

def exC8fs : FS :=
  { files := [(exC8prot, Content.bytes [1]), (exC8fail, Content.bytes [2]),
              (exC8ok, Content.bytes [3])],
    dirs := [[PathComp.str "pics"], [PathComp.str "Wedding"]],
    trash := [], opsLog := [] }

def exC8mf : FSPath → Bool := fun p => decide (p = exC8fail)

def exC8st : StageOutcome :=
  stage_for_deletion defaultConfig 0 exC8mf [exC8missing, exC8prot, exC8fail, exC8ok]
    "duplicate" [] exC8fs

/-- Witness for C8_stage_skips_and_records: of four inputs (missing,
protected, move-failing, fine) only the last is recorded, the other three
are skipped without aborting, and the operation id is still returned. -/
theorem C8_witness :
    exC8st.staged_files.map StagedEntry.original_path = [exC8ok] ∧
    exC8st.operation_id = opIdOfTime 0 ∧
    ∀ e ∈ exC8st.staged_files,
      defaultConfig.is_path_protected e.original_path = false ∧
      exC8mf e.original_path = false ∧
      e.original_path ∈ [exC8missing, exC8prot, exC8fail, exC8ok] :=
  ⟨by decide,
   (C8_stage_skips_and_records defaultConfig 0 exC8mf
     [exC8missing, exC8prot, exC8fail, exC8ok] "duplicate" [] exC8fs).1,
   (C8_stage_skips_and_records defaultConfig 0 exC8mf
     [exC8missing, exC8prot, exC8fail, exC8ok] "duplicate" [] exC8fs).2.2.1⟩

/-! Undo idempotence (C7). -/

theorem FS.pathExists_writeFile_mono (fs : FS) (p : FSPath) (c : Content)
    (q : FSPath) (h : fs.pathExists q = true) :
    (fs.writeFile p c).pathExists q = true := by
  unfold FS.pathExists at h ⊢
  rw [FS.dirExists_writeFile, FS.fileExists_writeFile]
  simp only [Bool.or_eq_true] at h
  rcases h with h1 | h1 <;> simp [h1]

theorem FS.fileExists_move_false (fs : FS) (src dst q : FSPath)
    (h : fs.fileExists q = false) (hd : ¬ q = dst) :
    (fs.move src dst).fileExists q = false := by
  unfold FS.move
  cases hl : fs.lookup src with
  | none => exact h
  | some c =>
    rw [FS.fileExists_writeFile]
    simp only [decide_eq_false hd, Bool.false_or]
    unfold FS.fileExists
    rw [FS.lookup_removeFile]
    by_cases hqs : q = src
    · rw [if_pos hqs]
      rfl
    · rw [if_neg hqs]
      exact h

/-- The staged file was moved back or its original slot is occupied: in
either case a further undo pass will skip the entry. -/
abbrev Blocked (fs : FS) (e : StagedEntry) : Prop :=
  fs.fileExists e.staged_path = false ∨ fs.pathExists e.original_path = true

/-- No entry's staged path is a prefix of (in particular equal to) any
entry's original path — true of every operation stage_for_deletion
produces, whose staged paths live inside the staging directory while the
originals live outside it. -/
abbrev SepEntries (files : List StagedEntry) : Prop :=
  ∀ e1 ∈ files, ∀ e2 ∈ files, isPrefixPath e1.staged_path e2.original_path = false

/-- No directory sits at a staged path (staged entries are regular files). -/
abbrev NoDirAtStaged (fs : FS) (files : List StagedEntry) : Prop :=
  ∀ e ∈ files, fs.dirExists e.staged_path = false

theorem undoLoop_cons_absent (x : StagedEntry) (rest : List StagedEntry) (fs : FS)
    (h : fs.pathExists x.staged_path = false) :
    undoLoop (x :: rest) fs = undoLoop rest fs := by
  conv_lhs => rw [undoLoop]
  rw [h]
  rfl

theorem undoLoop_cons_occupied (x : StagedEntry) (rest : List StagedEntry) (fs : FS)
    (h1 : fs.pathExists x.staged_path = true)
    (h2 : (fs.mkdirP (parentPath x.original_path)).pathExists x.original_path = true) :
    undoLoop (x :: rest) fs
      = undoLoop rest (fs.mkdirP (parentPath x.original_path)) := by
  conv_lhs => rw [undoLoop]
  rw [h1, h2]
  rfl

theorem undoLoop_cons_restore (x : StagedEntry) (rest : List StagedEntry) (fs : FS)
    (h1 : fs.pathExists x.staged_path = true)
    (h2 : (fs.mkdirP (parentPath x.original_path)).pathExists x.original_path = false) :
    undoLoop (x :: rest) fs
      = ((undoLoop rest ((fs.mkdirP (parentPath x.original_path)).move
            x.staged_path x.original_path)).1,
         (undoLoop rest ((fs.mkdirP (parentPath x.original_path)).move
            x.staged_path x.original_path)).2 + 1) := by
  conv_lhs => rw [undoLoop]
  rw [h1, h2]
  rfl

/-- After one undo pass every entry of the operation is blocked, and
blocked entries stay blocked; directories never appear at staged paths. -/
theorem undoLoop_invariant (F : List StagedEntry) (hsep : SepEntries F) :
    ∀ (l : List StagedEntry), (∀ x ∈ l, x ∈ F) → ∀ fs : FS,
      NoDirAtStaged fs F →
      NoDirAtStaged (undoLoop l fs).1 F ∧
      (∀ e ∈ F, Blocked fs e → Blocked (undoLoop l fs).1 e) ∧
      (∀ e ∈ l, Blocked (undoLoop l fs).1 e) := by
  intro l
  induction l with
  | nil =>
    intro _ fs hnd
    exact ⟨hnd, fun _ _ hb => hb, fun e he => absurd he (List.not_mem_nil e)⟩
  | cons x rest ih =>
    intro hsub fs hnd
    have hxF : x ∈ F := hsub x (List.mem_cons_self x rest)
    have hsubr : ∀ y ∈ rest, y ∈ F := fun y hy => hsub y (List.mem_cons_of_mem x hy)
    by_cases hst : fs.pathExists x.staged_path = true
    case neg =>
      have hst2 : fs.pathExists x.staged_path = false := Bool.eq_false_iff.2 hst
      have hfe : fs.fileExists x.staged_path = false ∧
          fs.dirExists x.staged_path = false := by
        unfold FS.pathExists at hst2
        simpa using hst2
      rw [undoLoop_cons_absent x rest fs hst2]
      obtain ⟨i1, i2, i3⟩ := ih hsubr fs hnd
      refine ⟨i1, i2, ?_⟩
      intro e he
      rcases List.mem_cons.1 he with he1 | he2
      · subst he1
        exact i2 _ hxF (Or.inl hfe.1)
      · exact i3 e he2
    case pos =>
      have hnd1 : NoDirAtStaged (fs.mkdirP (parentPath x.original_path)) F := by
        intro e heF
        cases hde : (fs.mkdirP (parentPath x.original_path)).dirExists e.staged_path with
        | false => rfl
        | true =>
          rcases FS.dirExists_mkdirP_cases fs _ _ hde with hc | hc
          · rw [hnd e heF] at hc
            simp at hc
          · have hp1 := mem_pathPrefixes_isPrefix _ _ hc
            have hp2 := isPrefixPath_trans _ _ _ hp1 (isPrefixPath_dropLast x.original_path)
            rw [hsep e heF x hxF] at hp2
            simp at hp2
      have hblock1 : ∀ e ∈ F, Blocked fs e →
          Blocked (fs.mkdirP (parentPath x.original_path)) e := by
        intro e _ hb
        rcases hb with hb | hb
        · exact Or.inl (by rw [FS.fileExists_mkdirP]; exact hb)
        · exact Or.inr (FS.pathExists_mkdirP_mono _ _ _ hb)
      by_cases hoc : (fs.mkdirP (parentPath x.original_path)).pathExists
          x.original_path = true
      case pos =>
        rw [undoLoop_cons_occupied x rest fs hst hoc]
        obtain ⟨i1, i2, i3⟩ := ih hsubr (fs.mkdirP (parentPath x.original_path)) hnd1
        refine ⟨i1, fun e heF hb => i2 e heF (hblock1 e heF hb), ?_⟩
        intro e he
        rcases List.mem_cons.1 he with he1 | he2
        · subst he1
          exact i2 _ hxF (Or.inr hoc)
        · exact i3 e he2
      case neg =>
        have hoc2 : (fs.mkdirP (parentPath x.original_path)).pathExists
            x.original_path = false := Bool.eq_false_iff.2 hoc
        rw [undoLoop_cons_restore x rest fs hst hoc2]
        have hnd2 : NoDirAtStaged ((fs.mkdirP (parentPath x.original_path)).move
            x.staged_path x.original_path) F := by
          intro e heF
          rw [FS.dirExists_move]
          exact hnd1 e heF
        have hxblock : Blocked ((fs.mkdirP (parentPath x.original_path)).move
            x.staged_path x.original_path) x := by
          right
          have hfe : (fs.mkdirP (parentPath x.original_path)).fileExists
              x.staged_path = true := by
            have hpe : (fs.mkdirP (parentPath x.original_path)).pathExists
                x.staged_path = true := FS.pathExists_mkdirP_mono _ _ _ hst
            unfold FS.pathExists at hpe
            rw [hnd1 x hxF] at hpe
            simpa using hpe
          have hm := FS.fileExists_move_dst (fs.mkdirP (parentPath x.original_path))
            x.staged_path x.original_path hfe
          unfold FS.pathExists
          rw [hm]
          rfl
        have hblock2 : ∀ e ∈ F,
            Blocked (fs.mkdirP (parentPath x.original_path)) e →
            Blocked ((fs.mkdirP (parentPath x.original_path)).move
              x.staged_path x.original_path) e := by
          intro e heF hb
          have hso : ¬ e.original_path = x.staged_path := by
            intro hcon
            have hx := hsep x hxF e heF
            rw [hcon, isPrefixPath_refl] at hx
            simp at hx
          have hos : ¬ e.staged_path = x.original_path := by
            intro hcon
            have hx := hsep e heF x hxF
            rw [hcon, isPrefixPath_refl] at hx
            simp at hx
          rcases hb with hb | hb
          · exact Or.inl (FS.fileExists_move_false _ _ _ _ hb hos)
          · exact Or.inr (FS.pathExists_move_mono _ _ _ _ hso hb)
        obtain ⟨i1, i2, i3⟩ := ih hsubr ((fs.mkdirP (parentPath x.original_path)).move
          x.staged_path x.original_path) hnd2
        refine ⟨i1, ?_, ?_⟩
        · intro e heF hb
          exact i2 e heF (hblock2 e heF (hblock1 e heF hb))
        · intro e he
          rcases List.mem_cons.1 he with he1 | he2
          · subst he1
            exact i2 _ hxF hxblock
          · exact i3 e he2

/-- A pass of the undo loop over entries that are all blocked restores
nothing. -/
theorem undoLoop_zero (F : List StagedEntry) (hsep : SepEntries F) :
    ∀ (l : List StagedEntry), (∀ x ∈ l, x ∈ F) → ∀ fs : FS,
      (∀ e ∈ F, Blocked fs e) → NoDirAtStaged fs F →
      (undoLoop l fs).2 = 0 := by
  intro l
  induction l with
  | nil =>
    intro _ fs _ _
    rfl
  | cons x rest ih =>
    intro hsub fs hB hnd
    have hxF : x ∈ F := hsub x (List.mem_cons_self x rest)
    have hsubr : ∀ y ∈ rest, y ∈ F := fun y hy => hsub y (List.mem_cons_of_mem x hy)
    by_cases hst : fs.pathExists x.staged_path = true
    case neg =>
      rw [undoLoop_cons_absent x rest fs (Bool.eq_false_iff.2 hst)]
      exact ih hsubr fs hB hnd
    case pos =>
      have hnd1 : NoDirAtStaged (fs.mkdirP (parentPath x.original_path)) F := by
        intro e heF
        cases hde : (fs.mkdirP (parentPath x.original_path)).dirExists e.staged_path with
        | false => rfl
        | true =>
          rcases FS.dirExists_mkdirP_cases fs _ _ hde with hc | hc
          · rw [hnd e heF] at hc
            simp at hc
          · have hp1 := mem_pathPrefixes_isPrefix _ _ hc
            have hp2 := isPrefixPath_trans _ _ _ hp1 (isPrefixPath_dropLast x.original_path)
            rw [hsep e heF x hxF] at hp2
            simp at hp2
      have hB1 : ∀ e ∈ F, Blocked (fs.mkdirP (parentPath x.original_path)) e := by
        intro e heF
        rcases hB e heF with hb | hb
        · exact Or.inl (by rw [FS.fileExists_mkdirP]; exact hb)
        · exact Or.inr (FS.pathExists_mkdirP_mono _ _ _ hb)
      have hoc : (fs.mkdirP (parentPath x.original_path)).pathExists
          x.original_path = true := by
        rcases hB x hxF with hb | hb
        · have : fs.pathExists x.staged_path = false := by
            unfold FS.pathExists
            rw [hb, hnd x hxF]
            rfl
          rw [this] at hst
          simp at hst
        · exact FS.pathExists_mkdirP_mono _ _ _ hb
      rw [undoLoop_cons_occupied x rest fs hst hoc]
      exact ih hsubr (fs.mkdirP (parentPath x.original_path)) hB1 hnd1

theorem undoLoop_dirExists_mono (d : FSPath) :
    ∀ (l : List StagedEntry) (fs : FS), fs.dirExists d = true →
      (undoLoop l fs).1.dirExists d = true := by
  intro l
  induction l with
  | nil =>
    intro fs h
    exact h
  | cons x rest ih =>
    intro fs h
    by_cases hst : fs.pathExists x.staged_path = true
    case neg =>
      rw [undoLoop_cons_absent x rest fs (Bool.eq_false_iff.2 hst)]
      exact ih fs h
    case pos =>
      by_cases hoc : (fs.mkdirP (parentPath x.original_path)).pathExists
          x.original_path = true
      case pos =>
        rw [undoLoop_cons_occupied x rest fs hst hoc]
        exact ih _ (FS.dirExists_mkdirP_mono _ _ _ h)
      case neg =>
        rw [undoLoop_cons_restore x rest fs hst (Bool.eq_false_iff.2 hoc)]
        exact ih _ (by rw [FS.dirExists_move]; exact FS.dirExists_mkdirP_mono _ _ _ h)

/-- undo_staging on a loadable descriptor, as one equation. -/
theorem undo_staging_eq (t oid : Nat) (fs : FS) (m : OperationMeta)
    (hd : fs.pathExists (opDirPath oid) = true)
    (hm : fs.lookup (metaFilePath oid) = some (Content.descriptor m)) :
    undo_staging t oid fs =
      { fs := (undoLoop m.files fs).1.writeFile (metaFilePath oid)
          (Content.descriptor { m with status := "undone",
                                       undo_timestamp := some t,
                                       files_restored := some (undoLoop m.files fs).2 }),
        result := decide (0 < (undoLoop m.files fs).2),
        restored := (undoLoop m.files fs).2 } := by
  unfold undo_staging
  rw [hd, hm]
  rfl


/-- C7: whenever undo_staging loads an operation descriptor, it returns
true exactly when at least one file was restored; and for an operation
whose entries are separated the way stage_for_deletion lays them out
(staged paths inside the operation directory, originals outside it, none
staged at the descriptor path, no directory at a staged path), a second
undo_staging call restores 0 files, does not fail, and returns false. -/
theorem C7_undo_iff_and_idempotent (t1 t2 oid : Nat) (fs : FS) (m : OperationMeta)
    (hdir : fs.dirExists (opDirPath oid) = true)
    (hm : fs.lookup (metaFilePath oid) = some (Content.descriptor m))
    (hsep : SepEntries m.files)
    (hmf : forall e, e ∈ m.files → ¬ e.staged_path = metaFilePath oid)
    (hnd : NoDirAtStaged fs m.files) :
    ((undo_staging t1 oid fs).result = true ↔ 0 < (undo_staging t1 oid fs).restored) ∧
    (undo_staging t2 oid (undo_staging t1 oid fs).fs).restored = 0 ∧
    (undo_staging t2 oid (undo_staging t1 oid fs).fs).result = false := by
  have hd : fs.pathExists (opDirPath oid) = true := by
    unfold FS.pathExists
    rw [hdir]
    simp
  have e1 := undo_staging_eq t1 oid fs m hd hm
  obtain ⟨j1, j2, j3⟩ := undoLoop_invariant m.files hsep m.files (fun x hx => hx) fs hnd
  simp only [e1]
  set m2 : OperationMeta :=
    { m with status := "undone", undo_timestamp := some t1,
             files_restored := some (undoLoop m.files fs).2 } with hm2
  set fs1 : FS := (undoLoop m.files fs).1.writeFile (metaFilePath oid)
    (Content.descriptor m2) with hfs1
  have hB1 : ∀ e ∈ m.files, Blocked fs1 e := by
    intro e he
    rcases j3 e he with hb | hb
    · left
      rw [hfs1, FS.fileExists_writeFile, hb, decide_eq_false (hmf e he)]
      rfl
    · exact Or.inr (by rw [hfs1]; exact FS.pathExists_writeFile_mono _ _ _ _ hb)
  have hnd1 : NoDirAtStaged fs1 m.files := by
    intro e he
    rw [hfs1, FS.dirExists_writeFile]
    exact j1 e he
  have hdir1 : fs1.dirExists (opDirPath oid) = true := by
    rw [hfs1, FS.dirExists_writeFile]
    exact undoLoop_dirExists_mono _ m.files fs hdir
  have hd1 : fs1.pathExists (opDirPath oid) = true := by
    unfold FS.pathExists
    rw [hdir1]
    simp
  have hm1 : fs1.lookup (metaFilePath oid) = some (Content.descriptor m2) := by
    rw [hfs1]
    exact FS.lookup_writeFile_self _ _ _
  have e2 := undo_staging_eq t2 oid fs1 m2 hd1 hm1
  simp only [e2]
  have hmm : m2.files = m.files := rfl
  have hz : (undoLoop m2.files fs1).2 = 0 := by
    rw [hmm]
    exact undoLoop_zero m.files hsep m.files (fun x hx => hx) fs1 hB1 hnd1
  refine ⟨by simp, hz, ?_⟩
  rw [hz]
  rfl

/-- The descriptor of exC3stage (one staged file). -/
def exC7meta : OperationMeta :=
  { operation_id := 0, timestamp := 0, reason := "duplicate", files_staged := 1,
    files := [{ original_path := [PathComp.str "pics", PathComp.str "a.jpg"],
                staged_path := opDirPath 0 ++ [PathComp.str "a.jpg"],
                size := 1, timestamp := 0 }],
    metadata := [], status := "staged" }

/-- Witness for C7_undo_iff_and_idempotent: on a freshly staged one-file
operation the first undo succeeds and the second restores nothing and
returns false. -/
theorem C7_witness :
    SepEntries exC7meta.files ∧
    (undo_staging 1 0 exC3stage.fs).result = true ∧
    (undo_staging 2 0 (undo_staging 1 0 exC3stage.fs).fs).restored = 0 ∧
    (undo_staging 2 0 (undo_staging 1 0 exC3stage.fs).fs).result = false :=
  ⟨by decide, by decide,
   (C7_undo_iff_and_idempotent 1 2 0 exC3stage.fs exC7meta (by decide) (by decide)
     (by decide) (by decide) (by decide)).2.1,
   (C7_undo_iff_and_idempotent 1 2 0 exC3stage.fs exC7meta (by decide) (by decide)
     (by decide) (by decide) (by decide)).2.2⟩

/-- C9 as amended: find_cross_platform_duplicates returns one group per
checksum present in both pools, carrying that checksum's full local and
drive record lists, and the groups are sorted (stably) in descending order
of the group's size field — the size of the first local record — rather
than of the total group size, which the counterexample shows is violated. -/
theorem C9_groups_by_first_local_size (d : CrossPlatformDetector) :
    List.Sorted bySizeDesc d.find_cross_platform_duplicates ∧
    (∀ g ∈ d.find_cross_platform_duplicates,
        poolFind d.drive_files g.md5 = some g.drive_files ∧
        (∃ pr ∈ d.local_files, pr.1 = g.md5 ∧ pr.2 = g.local_files) ∧
        (∃ lf lrest, g.local_files = lf :: lrest ∧ g.size = lf.size ∧
          g.name = lf.name)) ∧
    (∀ pr ∈ d.local_files, ¬ pr.2 = [] →
        (poolFind d.drive_files pr.1).isSome = true →
        ∃ g ∈ d.find_cross_platform_duplicates,
          g.md5 = pr.1 ∧ g.local_files = pr.2) := by
  unfold CrossPlatformDetector.find_cross_platform_duplicates
  simp only []
  refine ⟨List.sorted_insertionSort _ _, ?_, ?_⟩
  · intro g hg
    rw [(List.perm_insertionSort bySizeDesc _).mem_iff] at hg
    obtain ⟨e, he, hf⟩ := List.mem_filterMap.1 hg
    obtain ⟨hel, hpred⟩ := List.mem_filter.1 he
    obtain ⟨k, ll⟩ := e
    cases ll with
    | nil => exact absurd hf (by simp)
    | cons lf lrest =>
      cases hpo : poolFind d.drive_files k with
      | none =>
        rw [hpo] at hpred
        exact absurd hpred (by simp)
      | some dl =>
        rw [hpo] at hf
        simp only [Option.some.injEq] at hf
        subst hf
        refine ⟨by simpa using hpo, ⟨(k, lf :: lrest), hel, rfl, rfl⟩,
          lf, lrest, rfl, rfl, rfl⟩
  · intro pr hpr hnil hsome
    obtain ⟨k, ll⟩ := pr
    cases ll with
    | nil => exact absurd rfl hnil
    | cons lf lrest =>
      cases hpo : poolFind d.drive_files k with
      | none =>
        rw [hpo] at hsome
        exact absurd hsome (by simp)
      | some dl =>
        refine ⟨{ md5 := k, name := lf.name, size := lf.size,
                  local_files := lf :: lrest, drive_files := dl }, ?_, rfl, rfl⟩
        rw [(List.perm_insertionSort bySizeDesc _).mem_iff]
        refine List.mem_filterMap.2 ⟨(k, lf :: lrest),
          List.mem_filter.2 ⟨hpr, by rw [hpo]; rfl⟩, ?_⟩
        rw [hpo]

/-- Witness for C9_groups_by_first_local_size on the two-group detector
pools of the counterexample. -/
theorem C9_witness :
    List.Sorted bySizeDesc exC9det.find_cross_platform_duplicates :=
  (C9_groups_by_first_local_size exC9det).1

end ImgOrg


